import Mathlib

/-!
Shallow embedding of the farmhand job-queue worker
(`src/packages/queue/src/runner.rs`) and the authentication middleware
(`src/packages/api/src/middleware/auth.rs`).

The worker side models `run_worker` (one loop iteration), `handle_job`
with its two pipeline stages (`ProcessRawVideoIntoStream`,
`CompressRawVideo`), the Video record mutations they perform, and the
filesystem effects of the compression stage (chunked archive writing and
raw-file deletion).  Fallible external operations (database statements,
filesystem calls, the transcoding capability, queue acknowledgments) are
driven by an explicit oracle `Env` whose boolean fields say which
operation succeeds; machine I/O is replaced by explicit state passing
over `World` (videos table + filesystem) and `QueueState` (job rows).
The queue store operations themselves (`pull`, `push`, `delete_job`,
`fail_job`) live in a crate file not present under `src/`, so they are
modelled from the spec (§4.1); each such definition is marked.
-/

set_option autoImplicit false

namespace Farmhand

/-- Bytes of a file, one `Nat` per byte. -/
abbrev Bytes := List Nat

/-- The `videos` table row mutated by both pipeline stages.  Statuses are
kept as the SQL string literals the source binds (`'processing'`,
`'completed'`, ...); nullable columns are `Option`. -/
structure Video where
  id : Nat
  raw_video_path : Option String
  processing_status : String
  processed_video_path : Option String
  compression_status : String
  compressed_video_path : Option String
deriving DecidableEq, Repr

/-- `crate::queue::Message`: the job payload union.  The source matches it
with a trailing `_` arm, so the union is open; `other` stands for any
unrecognized or future variant. -/
inductive Message where
  | ProcessRawVideoIntoStream (video_id : Nat)
  | CompressRawVideo (video_id : Nat)
  | other (tag : Nat)
deriving DecidableEq, Repr

/-- `crate::job::PostgresJobStatus` (spec §3). -/
inductive PostgresJobStatus where
  | Queued
  | Processing
  | Completed
  | Failed
deriving DecidableEq, Repr

/-- The part of a claimed job that `handle_job` consumes. -/
structure Job where
  id : Nat
  message : Message
deriving DecidableEq, Repr

/-- A row of the job store. -/
structure JobRow where
  id : Nat
  status : PostgresJobStatus
  message : Message
  scheduled_time : Option Nat
deriving DecidableEq, Repr

/-- A filesystem node: an ordinary file with its bytes, or a finished zip
archive with its entries (entry name and uncompressed content). -/
inductive FsNode where
  | file (data : Bytes)
  | archive (entries : List (String × Bytes))
deriving DecidableEq, Repr

/-- Association-list lookup (first binding wins), used for the videos
table and the filesystem. -/
def lookupA {α β : Type} [BEq α] : List (α × β) → α → Option β
  | [], _ => none
  | (k, v) :: rest, key => if k == key then some v else lookupA rest key

/-- Insert or overwrite the binding of `k`. -/
def upsert {α β : Type} [BEq α] : List (α × β) → α → β → List (α × β)
  | [], k, v => [(k, v)]
  | (k', v') :: rest, k, v =>
    if k' == k then (k, v) :: rest else (k', v') :: upsert rest k v

/-- Remove every binding of `k` (an SQL `DELETE` / file removal). -/
def removeKey {α β : Type} [BEq α] (l : List (α × β)) (k : α) : List (α × β) :=
  l.filter (fun p => !(p.1 == k))

/-- Apply `f` to the value bound to `k`, if any (an SQL `UPDATE`, which is
a no-op on a missing row). -/
def updVal {α β : Type} [BEq α] (l : List (α × β)) (k : α) (f : β → β) : List (α × β) :=
  l.map (fun p => bif p.1 == k then (p.1, f p.2) else p)

/-- Mutable state outside the job store: the videos table and the
filesystem. -/
structure World where
  videos : List (Nat × Video)
  fs : List (String × FsNode)
deriving DecidableEq, Repr

/-- The job store (spec §3/§4.1): rows plus the id counter used by
`push`. -/
structure QueueState where
  rows : List JobRow
  nextId : Nat
deriving DecidableEq, Repr

/-- Outcome oracle for every fallible operation the worker performs:
`true` means the operation succeeds when reached.  `now` is the wall
clock in seconds.  `ackOk` says, per job id, whether the
`delete_job`/`fail_job` acknowledgment call succeeds. -/
structure Env where
  now : Nat := 0
  pullOk : Bool := true
  updProcessingOk : Bool := true
  converterNewOk : Bool := true
  convertOk : Bool := true
  updCompletedOk : Bool := true
  pushOk : Bool := true
  updCompressingOk : Bool := true
  createDirOk : Bool := true
  createZipOk : Bool := true
  startFileOk : Bool := true
  chunkOk : Bool := true
  finishOk : Bool := true
  removeOk : Bool := true
  updFailedOk : Bool := true
  updCompressedOk : Bool := true
  ackOk : Nat → Bool := fun _ => true

/-- Configuration resolved from the environment by the source, with its
documented defaults (`get_videos_dir`, `get_ffmpeg_location`). -/
structure Config where
  videosDir : String := "videos"
  ffmpegLocation : String := "/usr/bin/ffmpeg"
deriving DecidableEq, Repr

/-- `get_videos_dir`: `VIDEOS_DIR` or the default `videos`. -/
def get_videos_dir (cfg : Config) : String := cfg.videosDir

/-- `get_ffmpeg_location`: `FFMPEG_LOCATION` or the default
`/usr/bin/ffmpeg`. -/
def get_ffmpeg_location (cfg : Config) : String := cfg.ffmpegLocation

/-- `crate::error::Error`, restricted to the shapes `handle_job`
produces: database statement errors, `sqlx` row-not-found from
`fetch_one`, `VideoProcessingError`, and queue push errors. -/
inductive Error where
  | DatabaseError (s : String)
  | RowNotFound
  | VideoProcessingError (s : String)
  | QueueError (s : String)
deriving DecidableEq, Repr

/-- Split a path on `/`, keeping empty components (the behavior of
`str::split('/')`), written structurally over the character list so it
evaluates inside the kernel. -/
def splitSlashAux : List Char → List Char → List String
  | [], acc => [String.mk acc.reverse]
  | c :: cs, acc =>
    if c = '/' then String.mk acc.reverse :: splitSlashAux cs []
    else splitSlashAux cs (c :: acc)

def splitSlash (s : String) : List String := splitSlashAux s.toList []

instance {ε α : Type} [DecidableEq ε] [DecidableEq α] : DecidableEq (Except ε α)
  | .ok a, .ok b =>
    if h : a = b then .isTrue (by rw [h])
    else .isFalse (by intro hh; cases hh; exact h rfl)
  | .ok _, .error _ => .isFalse (by intro h; cases h)
  | .error _, .ok _ => .isFalse (by intro h; cases h)
  | .error a, .error b =>
    if h : a = b then .isTrue (by rw [h])
    else .isFalse (by intro hh; cases hh; exact h rfl)

/-- `Path::file_name` on the raw video path: the last component of the
`/`-separated path, ignoring empty and `.` components; `none` when the
path has no such component or ends in `..` (the source maps `none` to
`Error::VideoProcessingError "Invalid raw video path"`). -/
def fileName (p : String) : Option String :=
  match ((splitSlash p).filter (fun c => c ≠ "" ∧ c ≠ ".")).getLast? with
  | none => none
  | some c => if c = ".." then none else some c

/-- The per-video output directory `{videos_root}/{video_id}`. -/
def videoDirOf (cfg : Config) (video_id : Nat) : String :=
  get_videos_dir cfg ++ "/" ++ toString video_id

/-- The archive path `{videos_root}/{video_id}/raw.zip`. -/
def zipPathOf (cfg : Config) (video_id : Nat) : String :=
  videoDirOf cfg video_id ++ "/raw.zip"

/-- The stage-1 manifest path `{videos_root}/{video_id}/master.m3u8`. -/
def masterPathOf (cfg : Config) (video_id : Nat) : String :=
  videoDirOf cfg video_id ++ "/master.m3u8"

/-- The fixed chunk size of the compression read loop (1 MiB). -/
def chunkSize : Nat := 1024 * 1024

/-- Fuel-driven chunking of a byte list: the successive buffers the
compression loop reads (each of at most `chunkSize` bytes).  The fuel is
an upper bound on the number of chunks; `chunksOf` supplies enough. -/
def chunksOfAux : Nat → Bytes → List Bytes
  | 0, _ => []
  | _ + 1, [] => []
  | fuel + 1, a :: rest =>
    (a :: rest).take chunkSize :: chunksOfAux fuel ((a :: rest).drop chunkSize)

/-- The chunks the 1 MiB read loop produces from `data`. -/
def chunksOf (data : Bytes) : List Bytes :=
  chunksOfAux data.length data

/-- Steps of the stage-2 compression sequence, recorded in order of
execution (`removeRaw` is recorded when deletion is *attempted*, also
when that attempt itself fails). -/
inductive Ev where
  | updCompressing
  | fetchVideo
  | createDir
  | createZipFile
  | startFile
  | openInput
  | writeChunks
  | finishArchive
  | closeInput
  | removeRaw
  | updFailed
  | updCompleted
deriving DecidableEq, Repr

/-- Result of the inner compression block (the `async` block bound to
`compression_result` in the source): the zip path on success, the world
after the block's filesystem effects, and the executed steps. -/
structure InnerResult where
  res : Except Error String
  w : World
  tr : List Ev
deriving Repr

/-- Result of `handle_job`: the handler's `Result`, the job store and
world after its effects, and (for the compression stage) the executed
steps. -/
structure HandleResult where
  res : Except Error Unit
  qs : QueueState
  w : World
  tr : List Ev
deriving Repr

/-- Apply a Video-row update `f` at `id` (SQL `UPDATE ... WHERE id`,
a no-op when the row is missing). -/
def World.setVideo (w : World) (id : Nat) (f : Video → Video) : World :=
  { w with videos := updVal w.videos id f }

/-- Modelled from the spec (§4.1, §6): `Queue.push` inserts a new job row
with a fresh id, the given message, initial status and optional
visibility time.  The queue implementation file is not under `src/`. -/
def push (qs : QueueState) (m : Message) (st : PostgresJobStatus) (t : Option Nat) : QueueState :=
  { rows := qs.rows ++ [⟨qs.nextId, st, m, t⟩], nextId := qs.nextId + 1 }

/-- Modelled from the spec (§4.1): `delete_job` removes the row — the
acknowledgment of successful completion. -/
def delete_job (qs : QueueState) (id : Nat) : QueueState :=
  { qs with rows := qs.rows.filter (fun r => !(r.id == id)) }

/-- Modelled from the spec (§4.1): `fail_job` transitions the row to
`Failed` (terminal). -/
def fail_job (qs : QueueState) (id : Nat) : QueueState :=
  { qs with rows := qs.rows.map (fun r => if r.id == id then { r with status := .Failed } else r) }

/-- Modelled from the spec (§4.1): a row is eligible for `pull` when it
is `Queued` and its `scheduled_time` has passed (or is unset). -/
def eligible (now : Nat) (r : JobRow) : Bool :=
  r.status == .Queued &&
    (match r.scheduled_time with
     | none => true
     | some t => decide (t ≤ now))

/-- Modelled from the spec (§4.1): `pull` atomically selects up to
`limit` eligible rows, transitions them to `Processing`, and returns
them as claimed jobs. -/
def pull (qs : QueueState) (limit : Nat) (now : Nat) : List Job × QueueState :=
  let chosen := (qs.rows.filter (eligible now)).take limit
  let ids := chosen.map (fun r => r.id)
  let claimed := qs.rows.map
    (fun r => if ids.contains r.id then { r with status := .Processing } else r)
  (chosen.map (fun r => ⟨r.id, r.message⟩), { qs with rows := claimed })

/-- The inner compression block of the `CompressRawVideo` arm
(`runner.rs` lines 145–207): fetch the Video row, create the per-video
directory, create the zip file, derive the entry name from the raw
path's base name, start the entry, open the input file, stream it in
1 MiB chunks, finish the archive, close the input handle, and only then
delete the original raw file.  Returns the zip path on success. -/
def compressInner (cfg : Config) (env : Env) (video_id : Nat) (w : World) : InnerResult :=
  match lookupA w.videos video_id with
  | none => ⟨.error .RowNotFound, w, [.fetchVideo]⟩
  | some video =>
    if env.createDirOk then
      let zip_path := zipPathOf cfg video_id
      if env.createZipOk then
        let w1 : World := { w with fs := upsert w.fs zip_path (.archive []) }
        let raw_video_path := video.raw_video_path.getD ""
        match fileName raw_video_path with
        | none =>
          ⟨.error (.VideoProcessingError "Invalid raw video path"), w1,
            [.fetchVideo, .createDir, .createZipFile]⟩
        | some file_name =>
          if env.startFileOk then
            match lookupA w1.fs raw_video_path with
            | some (.file data) =>
              if env.chunkOk then
                let written := (chunksOf data).flatten
                if env.finishOk then
                  let w2 : World :=
                    { w1 with fs := upsert w1.fs zip_path (.archive [(file_name, written)]) }
                  if env.removeOk then
                    let w3 : World := { w2 with fs := removeKey w2.fs raw_video_path }
                    ⟨.ok zip_path, w3,
                      [.fetchVideo, .createDir, .createZipFile, .startFile, .openInput,
                       .writeChunks, .finishArchive, .closeInput, .removeRaw]⟩
                  else
                    ⟨.error (.VideoProcessingError "Failed to remove raw video"), w2,
                      [.fetchVideo, .createDir, .createZipFile, .startFile, .openInput,
                       .writeChunks, .finishArchive, .closeInput, .removeRaw]⟩
                else
                  ⟨.error (.VideoProcessingError "finish"), w1,
                    [.fetchVideo, .createDir, .createZipFile, .startFile, .openInput,
                     .writeChunks]⟩
              else
                ⟨.error (.VideoProcessingError "chunk io"), w1,
                  [.fetchVideo, .createDir, .createZipFile, .startFile, .openInput]⟩
            | _ =>
              ⟨.error (.VideoProcessingError "open input"), w1,
                [.fetchVideo, .createDir, .createZipFile, .startFile]⟩
          else
            ⟨.error (.VideoProcessingError "start_file"), w1,
              [.fetchVideo, .createDir, .createZipFile]⟩
      else
        ⟨.error (.VideoProcessingError "create zip"), w, [.fetchVideo, .createDir]⟩
    else
      ⟨.error (.VideoProcessingError "create_dir"), w, [.fetchVideo]⟩

/-- The `CompressRawVideo` arm of `handle_job` (`runner.rs` 133–243):
write `compression_status = 'compressing'`, run the inner block, then on
success write `completed` + archive path + `raw_video_path = NULL`, and
on failure write exactly one `failed` status and propagate the inner
error. -/
def handle_compress (cfg : Config) (env : Env) (video_id : Nat)
    (qs : QueueState) (w : World) : HandleResult :=
  if env.updCompressingOk then
    let w1 := w.setVideo video_id (fun v => { v with compression_status := "compressing" })
    let inner := compressInner cfg env video_id w1
    match inner.res with
    | .ok zip_path =>
      if env.updCompressedOk then
        ⟨.ok (), qs,
          inner.w.setVideo video_id (fun v =>
            { v with compression_status := "completed",
                     compressed_video_path := some zip_path,
                     raw_video_path := none }),
          .updCompressing :: inner.tr ++ [.updCompleted]⟩
      else
        ⟨.error (.DatabaseError "update completed"), qs, inner.w,
          .updCompressing :: inner.tr⟩
    | .error e =>
      if env.updFailedOk then
        ⟨.error e, qs,
          inner.w.setVideo video_id (fun v => { v with compression_status := "failed" }),
          .updCompressing :: inner.tr ++ [.updFailed]⟩
      else
        ⟨.error (.DatabaseError "update failed"), qs, inner.w,
          .updCompressing :: inner.tr⟩
  else
    ⟨.error (.DatabaseError "update compressing"), qs, w, []⟩

/-- The `ProcessRawVideoIntoStream` arm of `handle_job` (`runner.rs`
60–132): write `processing_status = 'processing'`, fetch the Video row,
build the HLS converter, transcode, then write `completed` + manifest
path and enqueue the compression job 24 hours out. -/
def handle_process (cfg : Config) (env : Env) (video_id : Nat)
    (qs : QueueState) (w : World) : HandleResult :=
  if env.updProcessingOk then
    let w1 := w.setVideo video_id (fun v => { v with processing_status := "processing" })
    match lookupA w1.videos video_id with
    | none => ⟨.error .RowNotFound, qs, w1, []⟩
    | some _video =>
      if env.converterNewOk then
        if env.convertOk then
          if env.updCompletedOk then
            let master := masterPathOf cfg video_id
            let w2 := w1.setVideo video_id (fun v =>
              { v with processing_status := "completed",
                       processed_video_path := some master })
            if env.pushOk then
              ⟨.ok (),
                push qs (.CompressRawVideo video_id) .Queued (some (env.now + 86400)),
                w2, []⟩
            else ⟨.error (.QueueError "push"), qs, w2, []⟩
          else ⟨.error (.DatabaseError "update completed"), qs, w1, []⟩
        else ⟨.error (.VideoProcessingError "convert_to_hls"), qs, w1, []⟩
      else ⟨.error (.VideoProcessingError "HLSConverter new"), qs, w1, []⟩
  else ⟨.error (.DatabaseError "update processing"), qs, w, []⟩

/-- `handle_job` (`runner.rs` 57–248): dispatch on the message variant;
unknown variants are logged and treated as success with no effect. -/
def handle_job (cfg : Config) (env : Env) (job : Job)
    (qs : QueueState) (w : World) : HandleResult :=
  match job.message with
  | .ProcessRawVideoIntoStream video_id => handle_process cfg env video_id qs w
  | .CompressRawVideo video_id => handle_compress cfg env video_id qs w
  | .other _ => ⟨.ok (), qs, w, []⟩

/-- `true` iff the handler returned `Ok`. -/
def exceptOk : Except Error Unit → Bool
  | .ok _ => true
  | .error _ => false

/-- Runner-level events of one loop iteration, in execution order. -/
inductive REv where
  | pull (limit : Nat)
  | pullError
  | sleepMs (n : Nat)
  | dispatch (jobId : Nat)
  | deleteJob (jobId : Nat)
  | failJob (jobId : Nat)
  | ackError (jobId : Nat)
deriving DecidableEq, Repr

def REvIsDispatch : REv → Bool
  | .dispatch _ => true
  | _ => false

def REvIsPull : REv → Bool
  | .pull _ => true
  | _ => false

/-- State after resolving one dispatched job. -/
structure DispatchResult where
  qs : QueueState
  w : World
  tr : List REv
deriving Repr

/-- One dispatch of the runner (`runner.rs` 34–48): run `handle_job`,
then acknowledge with `delete_job` on success or `fail_job` on error; a
failing acknowledgment is logged and absorbed. -/
def dispatchJob (cfg : Config) (env : Env) (job : Job)
    (qs : QueueState) (w : World) : DispatchResult :=
  let h := handle_job cfg env job qs w
  match h.res with
  | .ok _ =>
    if env.ackOk job.id then
      ⟨delete_job h.qs job.id, h.w, [.dispatch job.id, .deleteJob job.id]⟩
    else
      ⟨h.qs, h.w, [.dispatch job.id, .deleteJob job.id, .ackError job.id]⟩
  | .error _ =>
    if env.ackOk job.id then
      ⟨fail_job h.qs job.id, h.w, [.dispatch job.id, .failJob job.id]⟩
    else
      ⟨h.qs, h.w, [.dispatch job.id, .failJob job.id, .ackError job.id]⟩

/-- The batch fan-out of one iteration: every pulled job is dispatched
and runs to completion before the iteration ends (the source's
`for_each_concurrent(concurrency, ...)` awaited as one unit; the
embedding serializes the batch, which realizes the bounded-batch model
of spec §4.2). -/
def dispatchBatch (cfg : Config) (env : Env) : List Job → QueueState → World → DispatchResult
  | [], qs, w => ⟨qs, w, []⟩
  | j :: rest, qs, w =>
    let d := dispatchJob cfg env j qs w
    let b := dispatchBatch cfg env rest d.qs d.w
    ⟨b.qs, b.w, d.tr ++ b.tr⟩

structure IterResult where
  qs : QueueState
  w : World
  tr : List REv
deriving Repr

/-- One iteration of the `run_worker` loop (`runner.rs` 16–54): pull up
to `concurrency` jobs (on pull error: log, sleep 500ms, zero jobs),
dispatch the whole batch, then sleep the fixed 125ms idle interval. -/
def run_worker_iteration (cfg : Config) (env : Env) (concurrency : Nat)
    (qs : QueueState) (w : World) : IterResult :=
  if env.pullOk then
    let p := pull qs concurrency env.now
    let b := dispatchBatch cfg env p.1 p.2 w
    ⟨b.qs, b.w, .pull concurrency :: b.tr ++ [.sleepMs 125]⟩
  else
    ⟨qs, w, [.pull concurrency, .pullError, .sleepMs 500, .sleepMs 125]⟩

/-- Helper for `split_whitespace`: consume characters, flushing the
accumulated word at each whitespace character. -/
def splitWsAux : List Char → List Char → List String
  | [], acc => if acc.isEmpty then [] else [String.mk acc.reverse]
  | c :: cs, acc =>
    if c.isWhitespace then
      if acc.isEmpty then splitWsAux cs []
      else String.mk acc.reverse :: splitWsAux cs []
    else splitWsAux cs (c :: acc)

/-- Rust `str::split_whitespace`: split on whitespace and keep only the
non-empty pieces. -/
def split_whitespace (s : String) : List String := splitWsAux s.toList []

/-- What one `auth_middleware` call produces: the downstream response
(`next.run`), an early HTTP error status, or a panic (Rust `expect`). -/
inductive AuthOutcome where
  | response
  | errorStatus (code : Nat)
  | panicked (msg : String)
deriving DecidableEq, Repr

def AuthOutcome.isPanicked : AuthOutcome → Bool
  | .panicked _ => true
  | _ => false

/-- `auth_middleware` (`auth.rs` 14–54).  `header` is the
`Authorization` header (absent or its text); `utf8Ok` is whether
`to_str` succeeds on it, `decodeOk` whether `decode_jwt` succeeds,
`uuidOk` whether the claimed user id parses as a UUID, and `userOk`
whether the user row loads.  The token is the second
whitespace-separated part of the header, extracted with
`token.expect("Could not parse token")`. -/
def auth_middleware (header : Option String)
    (utf8Ok decodeOk uuidOk userOk : Bool) : AuthOutcome :=
  match header with
  | none => .errorStatus 400
  | some s =>
    if utf8Ok then
      match (split_whitespace s)[1]? with
      | none => .panicked "Could not parse token"
      | some _token =>
        if decodeOk then
          if uuidOk then
            if userOk then .response
            else .errorStatus 500
          else .errorStatus 400
        else .errorStatus 401
    else .errorStatus 400

/-! Lemmas about the association-list store operations and the chunked
read loop. -/

theorem lookupA_upsert_self {α β : Type} [BEq α] [LawfulBEq α]
    (l : List (α × β)) (k : α) (v : β) : lookupA (upsert l k v) k = some v := by
  induction l with
  | nil => simp [upsert, lookupA]
  | cons p rest ih =>
    obtain ⟨k', v'⟩ := p
    cases h : k' == k with
    | true => simp [upsert, h, lookupA]
    | false => simp [upsert, h, lookupA, ih]

theorem lookupA_upsert_ne {α β : Type} [BEq α] [LawfulBEq α]
    (l : List (α × β)) (k k' : α) (v : β) (hne : k' ≠ k) :
    lookupA (upsert l k v) k' = lookupA l k' := by
  induction l with
  | nil => simp [upsert, lookupA, beq_false_of_ne (Ne.symm hne)]
  | cons p rest ih =>
    obtain ⟨a, b⟩ := p
    cases h : a == k with
    | true =>
      have ha : a = k := eq_of_beq h
      subst ha
      simp [upsert, h, lookupA, beq_false_of_ne (Ne.symm hne)]
    | false => simp [upsert, h, lookupA, ih]

theorem lookupA_removeKey_self {α β : Type} [BEq α] [LawfulBEq α]
    (l : List (α × β)) (k : α) : lookupA (removeKey l k) k = none := by
  induction l with
  | nil => simp [removeKey, lookupA]
  | cons p rest ih =>
    obtain ⟨a, b⟩ := p
    cases h : a == k with
    | true => simpa [removeKey, h, lookupA] using ih
    | false => simpa [removeKey, h, lookupA] using ih

theorem lookupA_removeKey_ne {α β : Type} [BEq α] [LawfulBEq α]
    (l : List (α × β)) (k k' : α) (hne : k' ≠ k) :
    lookupA (removeKey l k) k' = lookupA l k' := by
  induction l with
  | nil => simp [removeKey, lookupA]
  | cons p rest ih =>
    obtain ⟨a, b⟩ := p
    cases h : a == k with
    | true =>
      have ha : a = k := eq_of_beq h
      subst ha
      simpa [removeKey, h, lookupA, beq_false_of_ne (Ne.symm hne)] using ih
    | false =>
      simp only [removeKey] at ih
      simp [removeKey, h, lookupA, ih]

theorem lookupA_updVal_self {α β : Type} [BEq α] [LawfulBEq α]
    (l : List (α × β)) (k : α) (f : β → β) :
    lookupA (updVal l k f) k = (lookupA l k).map f := by
  induction l with
  | nil => simp [updVal, lookupA]
  | cons p rest ih =>
    obtain ⟨a, b⟩ := p
    simp only [updVal, List.map_cons] at ih ⊢
    cases h : a == k with
    | true =>
      simp only [h, Bool.cond_true, lookupA]
      simp [h, ih]
    | false =>
      simp only [h, Bool.cond_false, lookupA]
      simp [h, ih]

theorem lookupA_updVal_ne {α β : Type} [BEq α] [LawfulBEq α]
    (l : List (α × β)) (k k' : α) (f : β → β) (hne : k' ≠ k) :
    lookupA (updVal l k f) k' = lookupA l k' := by
  induction l with
  | nil => simp [updVal, lookupA]
  | cons p rest ih =>
    obtain ⟨a, b⟩ := p
    simp only [updVal, List.map_cons] at ih ⊢
    cases h : a == k with
    | true =>
      have ha : a = k := eq_of_beq h
      subst ha
      simp only [h, Bool.cond_true, lookupA]
      simp [beq_false_of_ne (Ne.symm hne), ih]
    | false =>
      simp only [h, Bool.cond_false, lookupA]
      simp [ih]

theorem chunksOfAux_join : ∀ (fuel : Nat) (data : Bytes),
    data.length ≤ fuel → (chunksOfAux fuel data).flatten = data := by
  intro fuel
  induction fuel with
  | zero =>
    intro data h
    have : data = [] := List.eq_nil_of_length_eq_zero (Nat.le_zero.mp h)
    simp [this, chunksOfAux]
  | succ n ih =>
    intro data h
    match data with
    | [] => simp [chunksOfAux]
    | a :: rest =>
      have hlen : ((a :: rest).drop chunkSize).length ≤ n := by
        simp only [List.length_drop, List.length_cons] at *
        have : 0 < chunkSize := by decide
        omega
      simp only [chunksOfAux, List.flatten, ih _ hlen, List.take_append_drop]

/-- Concatenating the chunks of the read loop restores the input
byte-for-byte, whatever the file size. -/
theorem chunksOf_join (data : Bytes) : (chunksOf data).flatten = data :=
  chunksOfAux_join data.length data (Nat.le_refl _)

/-! Helper lemmas about the runner's per-job resolution and batch. -/

theorem dispatchJob_tr_filter_dispatch (cfg : Config) (env : Env) (job : Job)
    (qs : QueueState) (w : World) :
    (dispatchJob cfg env job qs w).tr.filter REvIsDispatch = [.dispatch job.id] := by
  cases hres : (handle_job cfg env job qs w).res <;>
    by_cases hack : env.ackOk job.id <;>
      simp [dispatchJob, hres, hack, REvIsDispatch]

theorem dispatchJob_tr_filter_pull (cfg : Config) (env : Env) (job : Job)
    (qs : QueueState) (w : World) :
    (dispatchJob cfg env job qs w).tr.filter REvIsPull = [] := by
  cases hres : (handle_job cfg env job qs w).res <;>
    by_cases hack : env.ackOk job.id <;>
      simp [dispatchJob, hres, hack, REvIsPull]

theorem dispatchJob_mem_dispatch (cfg : Config) (env : Env) (job : Job)
    (qs : QueueState) (w : World) :
    (.dispatch job.id : REv) ∈ (dispatchJob cfg env job qs w).tr := by
  cases hres : (handle_job cfg env job qs w).res <;>
    by_cases hack : env.ackOk job.id <;>
      simp [dispatchJob, hres, hack]

theorem dispatchBatch_tr_filter_dispatch (cfg : Config) (env : Env) :
    ∀ (jobs : List Job) (qs : QueueState) (w : World),
    ((dispatchBatch cfg env jobs qs w).tr.filter REvIsDispatch).length = jobs.length := by
  intro jobs
  induction jobs with
  | nil => intro qs w; simp [dispatchBatch]
  | cons j rest ih =>
    intro qs w
    simp [dispatchBatch, List.filter_append, dispatchJob_tr_filter_dispatch, ih]

theorem dispatchBatch_tr_filter_pull (cfg : Config) (env : Env) :
    ∀ (jobs : List Job) (qs : QueueState) (w : World),
    (dispatchBatch cfg env jobs qs w).tr.filter REvIsPull = [] := by
  intro jobs
  induction jobs with
  | nil => intro qs w; simp [dispatchBatch]
  | cons j rest ih =>
    intro qs w
    simp [dispatchBatch, List.filter_append, dispatchJob_tr_filter_pull, ih]

theorem dispatchBatch_mem_dispatch (cfg : Config) (env : Env) :
    ∀ (jobs : List Job) (qs : QueueState) (w : World) (j : Job), j ∈ jobs →
    (.dispatch j.id : REv) ∈ (dispatchBatch cfg env jobs qs w).tr := by
  intro jobs
  induction jobs with
  | nil => intro qs w j hj; cases hj
  | cons a rest ih =>
    intro qs w j hj
    rcases List.mem_cons.mp hj with h | h
    · subst h
      simp [dispatchBatch, dispatchJob_mem_dispatch]
    · simp [dispatchBatch, ih _ _ _ h]

theorem pull_length_le (qs : QueueState) (limit now : Nat) :
    ((pull qs limit now).1).length ≤ limit := by
  simp only [pull, List.length_map]
  exact le_trans (List.length_take_le _ _) (le_refl _)

theorem pull_mem_source (qs : QueueState) (limit now : Nat) (j : Job)
    (hj : j ∈ (pull qs limit now).1) : ∃ r ∈ qs.rows, j.id = r.id := by
  simp only [pull, List.mem_map] at hj
  obtain ⟨r, hr, hjr⟩ := hj
  refine ⟨r, ?_, ?_⟩
  · exact List.mem_of_mem_filter (List.mem_of_mem_take hr)
  · rw [← hjr]

/-! Claim theorems about the Runner loop. -/

/-- C5: in every iteration of `run_worker`, the pull limit equals the
configured concurrency parameter, exactly one pull happens per
iteration (so every dispatch of the batch completes before the next
iteration's pull), the number of dispatches is bounded by `concurrency`
(the same parameter also bounds the `for_each_concurrent` fan-out, so at
most that many handler calls are in flight), and the fixed 125ms idle
sleep is the last event regardless of batch size. -/
theorem c5_iteration_bounded_batch (cfg : Config) (env : Env) (concurrency : Nat)
    (qs : QueueState) (w : World) :
    (run_worker_iteration cfg env concurrency qs w).tr.head? = some (.pull concurrency) ∧
    ((run_worker_iteration cfg env concurrency qs w).tr.filter REvIsPull).length = 1 ∧
    ((run_worker_iteration cfg env concurrency qs w).tr.filter REvIsDispatch).length
      ≤ concurrency ∧
    (run_worker_iteration cfg env concurrency qs w).tr.getLast? = some (.sleepMs 125) := by
  by_cases hp : env.pullOk
  · refine ⟨?_, ?_, ?_, ?_⟩
    · simp [run_worker_iteration, hp]
    · simp [run_worker_iteration, hp, List.filter_append,
        dispatchBatch_tr_filter_pull, REvIsPull]
    · have hlen := dispatchBatch_tr_filter_dispatch cfg env
        (pull qs concurrency env.now).1 (pull qs concurrency env.now).2 w
      have hle := pull_length_le qs concurrency env.now
      simp only [run_worker_iteration, hp, if_true, List.filter_append, List.filter_cons]
      simp [REvIsDispatch, hlen]
      omega
    · simp only [run_worker_iteration, hp, if_true]
      rw [List.getLast?_concat]
  · simp only [Bool.not_eq_true] at hp
    refine ⟨?_, ?_, ?_, ?_⟩ <;> simp [run_worker_iteration, hp, REvIsPull, REvIsDispatch]

/-- C6: when `queue.pull` fails, the iteration neither terminates the
loop nor propagates the error: the job store and world are untouched,
the trace records the pull error, the fixed 500ms backoff sleep, no
dispatches (zero jobs), and the iteration still finishes with the 125ms
idle sleep, continuing the loop. -/
theorem c6_pull_error_backoff (cfg : Config) (env : Env) (concurrency : Nat)
    (qs : QueueState) (w : World) (h : env.pullOk = false) :
    run_worker_iteration cfg env concurrency qs w =
      ⟨qs, w, [.pull concurrency, .pullError, .sleepMs 500, .sleepMs 125]⟩ := by
  simp [run_worker_iteration, h]

theorem c6_pull_error_backoff_witness :
    ({ pullOk := false : Env }).pullOk = false ∧
    run_worker_iteration {} { pullOk := false } 3 ⟨[], 0⟩ ⟨[], []⟩ =
      ⟨⟨[], 0⟩, ⟨[], []⟩, [.pull 3, .pullError, .sleepMs 500, .sleepMs 125]⟩ :=
  ⟨rfl, c6_pull_error_backoff {} { pullOk := false } 3 ⟨[], 0⟩ ⟨[], []⟩ rfl⟩

/-- C7: for every job, the runner calls `delete_job` on the job's id iff
`handle_job` succeeded and `fail_job` iff it failed; when the
acknowledgment call itself fails, the job store is left as the handler
left it (the failure is only logged) and the batch still dispatches
every job, unaffected. -/
theorem c7_ack_iff_handler_result (cfg : Config) (env : Env) (job : Job)
    (qs : QueueState) (w : World) :
    ((.deleteJob job.id : REv) ∈ (dispatchJob cfg env job qs w).tr
      ↔ exceptOk (handle_job cfg env job qs w).res = true) ∧
    ((.failJob job.id : REv) ∈ (dispatchJob cfg env job qs w).tr
      ↔ exceptOk (handle_job cfg env job qs w).res = false) ∧
    (env.ackOk job.id = false →
      (dispatchJob cfg env job qs w).qs = (handle_job cfg env job qs w).qs ∧
      (.ackError job.id : REv) ∈ (dispatchJob cfg env job qs w).tr) ∧
    (∀ (jobs : List Job) (qs' : QueueState) (w' : World), ∀ j ∈ jobs,
      (.dispatch j.id : REv) ∈ (dispatchBatch cfg env jobs qs' w').tr) := by
  refine ⟨?_, ?_, ?_, ?_⟩
  · cases hres : (handle_job cfg env job qs w).res <;>
      by_cases hack : env.ackOk job.id <;>
        simp [dispatchJob, hres, hack, exceptOk]
  · cases hres : (handle_job cfg env job qs w).res <;>
      by_cases hack : env.ackOk job.id <;>
        simp [dispatchJob, hres, hack, exceptOk]
  · intro hack
    cases hres : (handle_job cfg env job qs w).res <;>
      simp [dispatchJob, hres, hack]
  · intro jobs qs' w' j hj
    exact dispatchBatch_mem_dispatch cfg env jobs qs' w' j hj

theorem c7_ack_iff_handler_result_witness :
    (({ ackOk := fun _ => false : Env }).ackOk 1 = false) ∧
    ((.deleteJob 1 : REv) ∈
        (dispatchJob {} { ackOk := fun _ => false } ⟨1, .other 0⟩ ⟨[], 0⟩ ⟨[], []⟩).tr
      ↔ exceptOk (handle_job {} { ackOk := fun _ => false } ⟨1, .other 0⟩ ⟨[], 0⟩
          ⟨[], []⟩).res = true) ∧
    ((dispatchJob {} { ackOk := fun _ => false } ⟨1, .other 0⟩ ⟨[], 0⟩ ⟨[], []⟩).qs
        = (handle_job {} { ackOk := fun _ => false } ⟨1, .other 0⟩ ⟨[], 0⟩ ⟨[], []⟩).qs ∧
      (.ackError 1 : REv) ∈
        (dispatchJob {} { ackOk := fun _ => false } ⟨1, .other 0⟩ ⟨[], 0⟩ ⟨[], []⟩).tr) ∧
    ((.dispatch 1 : REv) ∈
      (dispatchBatch {} { ackOk := fun _ => false } [⟨1, .other 0⟩] ⟨[], 0⟩ ⟨[], []⟩).tr) :=
  ⟨rfl,
   (c7_ack_iff_handler_result {} { ackOk := fun _ => false } ⟨1, .other 0⟩ ⟨[], 0⟩ ⟨[], []⟩).1,
   (c7_ack_iff_handler_result {} { ackOk := fun _ => false } ⟨1, .other 0⟩ ⟨[], 0⟩
      ⟨[], []⟩).2.2.1 rfl,
   (c7_ack_iff_handler_result {} { ackOk := fun _ => false } ⟨1, .other 0⟩ ⟨[], 0⟩
      ⟨[], []⟩).2.2.2 [⟨1, .other 0⟩] ⟨[], 0⟩ ⟨[], []⟩ ⟨1, .other 0⟩ (by decide)⟩

/-- C4: a job whose message is not a recognized variant is handled as a
success with no store mutation, the runner then calls `delete_job`, the
row is gone from the job store, and no later `pull` (any limit, any
time) can ever return it again. -/
theorem c4_unknown_variant_deleted (cfg : Config) (env : Env) (job : Job)
    (qs : QueueState) (w : World) (tag : Nat)
    (hm : job.message = .other tag) (hack : env.ackOk job.id = true) :
    handle_job cfg env job qs w = ⟨.ok (), qs, w, []⟩ ∧
    (dispatchJob cfg env job qs w).w = w ∧
    (dispatchJob cfg env job qs w).tr = [.dispatch job.id, .deleteJob job.id] ∧
    (∀ r ∈ (dispatchJob cfg env job qs w).qs.rows, r.id ≠ job.id) ∧
    (∀ (limit now : Nat), ∀ j ∈ (pull (dispatchJob cfg env job qs w).qs limit now).1,
      j.id ≠ job.id) := by
  have hh : handle_job cfg env job qs w = ⟨.ok (), qs, w, []⟩ := by
    simp [handle_job, hm]
  have hd : dispatchJob cfg env job qs w =
      ⟨delete_job qs job.id, w, [.dispatch job.id, .deleteJob job.id]⟩ := by
    simp [dispatchJob, hh, hack]
  have hrows : ∀ r ∈ (dispatchJob cfg env job qs w).qs.rows, r.id ≠ job.id := by
    intro r hr
    rw [hd] at hr
    simp only [delete_job, List.mem_filter] at hr
    simpa using hr.2
  refine ⟨hh, by rw [hd], by rw [hd], hrows, ?_⟩
  intro limit now j hj
  obtain ⟨r, hr, hjr⟩ := pull_mem_source _ limit now j hj
  rw [hjr]
  exact hrows r hr

theorem c4_unknown_variant_deleted_witness :
    ((⟨1, .other 9⟩ : Job).message = .other 9) ∧
    (({} : Env).ackOk 1 = true) ∧
    (handle_job {} {} ⟨1, .other 9⟩ ⟨[⟨1, .Processing, .other 9, none⟩], 2⟩ ⟨[], []⟩
        = ⟨.ok (), ⟨[⟨1, .Processing, .other 9, none⟩], 2⟩, ⟨[], []⟩, []⟩ ∧
      (∀ r ∈ (dispatchJob {} {} ⟨1, .other 9⟩
          ⟨[⟨1, .Processing, .other 9, none⟩], 2⟩ ⟨[], []⟩).qs.rows, r.id ≠ 1) ∧
      (∀ j ∈ (pull (dispatchJob {} {} ⟨1, .other 9⟩
          ⟨[⟨1, .Processing, .other 9, none⟩], 2⟩ ⟨[], []⟩).qs 5 999).1, j.id ≠ 1)) :=
  ⟨rfl, rfl, by
    have h := c4_unknown_variant_deleted {} {} ⟨1, .other 9⟩
      ⟨[⟨1, .Processing, .other 9, none⟩], 2⟩ ⟨[], []⟩ 9 rfl rfl
    exact ⟨h.1, h.2.2.2.1, h.2.2.2.2 5 999⟩⟩

/-! Claim theorems about stage 1 (`ProcessRawVideoIntoStream`). -/

/-- C3: a successful stage-1 run sets `processing_status = completed`
and `processed_video_path` to the generated `master.m3u8` path, pushes
exactly one new job — message `CompressRawVideo{video_id}`, status
`Queued`, `scheduled_time` = push time + 24 hours (86400 s) — and
returns success; the filesystem model is untouched by the handler
itself. -/
theorem c3_stage1_success_chains (cfg : Config) (env : Env) (vid jid : Nat)
    (qs : QueueState) (w : World) (video : Video)
    (h1 : env.updProcessingOk = true) (h2 : env.converterNewOk = true)
    (h3 : env.convertOk = true) (h4 : env.updCompletedOk = true)
    (h5 : env.pushOk = true)
    (hv : lookupA w.videos vid = some video) :
    (handle_job cfg env ⟨jid, .ProcessRawVideoIntoStream vid⟩ qs w).res = .ok () ∧
    lookupA (handle_job cfg env ⟨jid, .ProcessRawVideoIntoStream vid⟩ qs w).w.videos vid
      = some { video with processing_status := "completed",
                          processed_video_path := some (masterPathOf cfg vid) } ∧
    (handle_job cfg env ⟨jid, .ProcessRawVideoIntoStream vid⟩ qs w).qs.rows
      = qs.rows ++ [⟨qs.nextId, .Queued, .CompressRawVideo vid, some (env.now + 86400)⟩] ∧
    (handle_job cfg env ⟨jid, .ProcessRawVideoIntoStream vid⟩ qs w).w.fs = w.fs := by
  have hv1 : lookupA (updVal w.videos vid
      (fun v => { v with processing_status := "processing" })) vid
      = some { video with processing_status := "processing" } := by
    rw [lookupA_updVal_self, hv]
    rfl
  simp only [handle_job, handle_process, World.setVideo, h1, h2, h3, h4, h5, if_true, hv1]
  simp [push, lookupA_updVal_self, hv]

theorem c3_stage1_success_chains_witness :
    (({} : Env).updProcessingOk = true) ∧
    (lookupA ([(7, (⟨7, some "uploads/a.mp4", "none", none, "none", none⟩ : Video))] :
        List (Nat × Video)) 7 = some ⟨7, some "uploads/a.mp4", "none", none, "none", none⟩) ∧
    ((handle_job {} {} ⟨1, .ProcessRawVideoIntoStream 7⟩ ⟨[], 5⟩
        ⟨[(7, ⟨7, some "uploads/a.mp4", "none", none, "none", none⟩)], []⟩).res = .ok () ∧
      (handle_job {} {} ⟨1, .ProcessRawVideoIntoStream 7⟩ ⟨[], 5⟩
        ⟨[(7, ⟨7, some "uploads/a.mp4", "none", none, "none", none⟩)], []⟩).qs.rows
        = [⟨5, .Queued, .CompressRawVideo 7, some 86400⟩]) :=
  ⟨rfl, by decide, by
    have h := c3_stage1_success_chains {} {} 7 1 ⟨[], 5⟩
      ⟨[(7, ⟨7, some "uploads/a.mp4", "none", none, "none", none⟩)], []⟩
      ⟨7, some "uploads/a.mp4", "none", none, "none", none⟩
      rfl rfl rfl rfl rfl (by decide)
    exact ⟨h.1, h.2.2.1⟩⟩

/-- C10: if the enqueue of the compression job fails after the
`completed` status update already succeeded, the handler returns the
push error (so the Runner will `fail_job`), while the Video record keeps
`processing_status = completed` with `processed_video_path` set, and the
job store is unchanged — no compression job exists. -/
theorem c10_push_failure_leaves_completed (cfg : Config) (env : Env) (vid jid : Nat)
    (qs : QueueState) (w : World) (video : Video)
    (h1 : env.updProcessingOk = true) (h2 : env.converterNewOk = true)
    (h3 : env.convertOk = true) (h4 : env.updCompletedOk = true)
    (h5 : env.pushOk = false)
    (hv : lookupA w.videos vid = some video) :
    (handle_job cfg env ⟨jid, .ProcessRawVideoIntoStream vid⟩ qs w).res
      = .error (.QueueError "push") ∧
    lookupA (handle_job cfg env ⟨jid, .ProcessRawVideoIntoStream vid⟩ qs w).w.videos vid
      = some { video with processing_status := "completed",
                          processed_video_path := some (masterPathOf cfg vid) } ∧
    (handle_job cfg env ⟨jid, .ProcessRawVideoIntoStream vid⟩ qs w).qs = qs := by
  have hv1 : lookupA (updVal w.videos vid
      (fun v => { v with processing_status := "processing" })) vid
      = some { video with processing_status := "processing" } := by
    rw [lookupA_updVal_self, hv]
    rfl
  simp only [handle_job, handle_process, World.setVideo, h1, h2, h3, h4, h5, if_true,
    Bool.false_eq_true, if_false, hv1]
  simp [lookupA_updVal_self, hv]

theorem c10_push_failure_leaves_completed_witness :
    (({ pushOk := false } : Env).pushOk = false) ∧
    ((handle_job {} { pushOk := false } ⟨1, .ProcessRawVideoIntoStream 7⟩ ⟨[], 5⟩
        ⟨[(7, ⟨7, some "uploads/a.mp4", "none", none, "none", none⟩)], []⟩).res
        = .error (.QueueError "push") ∧
      (handle_job {} { pushOk := false } ⟨1, .ProcessRawVideoIntoStream 7⟩ ⟨[], 5⟩
        ⟨[(7, ⟨7, some "uploads/a.mp4", "none", none, "none", none⟩)], []⟩).qs = ⟨[], 5⟩) :=
  ⟨rfl, by
    have h := c10_push_failure_leaves_completed {} { pushOk := false } 7 1 ⟨[], 5⟩
      ⟨[(7, ⟨7, some "uploads/a.mp4", "none", none, "none", none⟩)], []⟩
      ⟨7, some "uploads/a.mp4", "none", none, "none", none⟩
      rfl rfl rfl rfl rfl (by decide)
    exact ⟨h.1, h.2.2⟩⟩

/-- C8 as frozen is false: the enqueue of the compression job is a step
after the initial status write, and when it is the failing step the
handler returns an error while the record is left at
`processing_status = completed`, not `processing` (cf. C10).  Concrete
input: video 7 present, all operations succeed except the queue push. -/
theorem c8_counterexample_push_step :
    (handle_job {} { pushOk := false } ⟨1, .ProcessRawVideoIntoStream 7⟩ ⟨[], 0⟩
        ⟨[(7, ⟨7, some "uploads/a.mp4", "none", none, "none", none⟩)], []⟩).res
      = .error (.QueueError "push") ∧
    (lookupA (handle_job {} { pushOk := false } ⟨1, .ProcessRawVideoIntoStream 7⟩ ⟨[], 0⟩
        ⟨[(7, ⟨7, some "uploads/a.mp4", "none", none, "none", none⟩)], []⟩).w.videos 7).map
      Video.processing_status = some "completed" := by decide

/-- C8 amended: when a stage-1 step after the initial `processing` write
and up to (and including) the success-status update fails — the fetch
succeeded here, and the failing step is converter construction,
transcoding, or the `completed` update itself — the handler returns the
error, writes no further `processing_status`, and the record is left at
`processing_status = processing`; no job is pushed.  (When the failing
step is the post-update enqueue, the record is instead left at
`completed`; see C10.) -/
theorem c8_amended_failure_leaves_processing (cfg : Config) (env : Env) (vid jid : Nat)
    (qs : QueueState) (w : World) (video : Video)
    (h1 : env.updProcessingOk = true)
    (hv : lookupA w.videos vid = some video)
    (hstep : env.converterNewOk = false ∨ env.convertOk = false ∨
      env.updCompletedOk = false) :
    exceptOk (handle_job cfg env ⟨jid, .ProcessRawVideoIntoStream vid⟩ qs w).res = false ∧
    lookupA (handle_job cfg env ⟨jid, .ProcessRawVideoIntoStream vid⟩ qs w).w.videos vid
      = some { video with processing_status := "processing" } ∧
    (handle_job cfg env ⟨jid, .ProcessRawVideoIntoStream vid⟩ qs w).qs = qs := by
  have hv1 : lookupA (updVal w.videos vid
      (fun v => { v with processing_status := "processing" })) vid
      = some { video with processing_status := "processing" } := by
    rw [lookupA_updVal_self, hv]
    rfl
  rcases hstep with h | h | h
  · simp only [handle_job, handle_process, World.setVideo, h1, h, if_true,
      Bool.false_eq_true, if_false, hv1]
    simp [exceptOk, hv1]
  · by_cases hc : env.converterNewOk
    · simp only [handle_job, handle_process, World.setVideo, h1, hc, h, if_true,
        Bool.false_eq_true, if_false, hv1]
      simp [exceptOk, hv1]
    · simp only [Bool.not_eq_true] at hc
      simp only [handle_job, handle_process, World.setVideo, h1, hc, if_true,
        Bool.false_eq_true, if_false, hv1]
      simp [exceptOk, hv1]
  · by_cases hc : env.converterNewOk
    · by_cases hc2 : env.convertOk
      · simp only [handle_job, handle_process, World.setVideo, h1, hc, hc2, h, if_true,
          Bool.false_eq_true, if_false, hv1]
        simp [exceptOk, hv1]
      · simp only [Bool.not_eq_true] at hc2
        simp only [handle_job, handle_process, World.setVideo, h1, hc, hc2, if_true,
          Bool.false_eq_true, if_false, hv1]
        simp [exceptOk, hv1]
    · simp only [Bool.not_eq_true] at hc
      simp only [handle_job, handle_process, World.setVideo, h1, hc, if_true,
        Bool.false_eq_true, if_false, hv1]
      simp [exceptOk, hv1]

theorem c8_amended_failure_leaves_processing_witness :
    (({ convertOk := false } : Env).updProcessingOk = true) ∧
    (({ convertOk := false } : Env).convertOk = false) ∧
    (exceptOk (handle_job {} { convertOk := false } ⟨1, .ProcessRawVideoIntoStream 7⟩ ⟨[], 0⟩
        ⟨[(7, ⟨7, some "uploads/a.mp4", "none", none, "none", none⟩)], []⟩).res = false ∧
      lookupA (handle_job {} { convertOk := false } ⟨1, .ProcessRawVideoIntoStream 7⟩ ⟨[], 0⟩
        ⟨[(7, ⟨7, some "uploads/a.mp4", "none", none, "none", none⟩)], []⟩).w.videos 7
        = some ⟨7, some "uploads/a.mp4", "processing", none, "none", none⟩) :=
  ⟨rfl, rfl, by
    have h := c8_amended_failure_leaves_processing {} { convertOk := false } 7 1 ⟨[], 0⟩
      ⟨[(7, ⟨7, some "uploads/a.mp4", "none", none, "none", none⟩)], []⟩
      ⟨7, some "uploads/a.mp4", "none", none, "none", none⟩
      rfl (by decide) (Or.inr (Or.inl rfl))
    exact ⟨h.1, h.2.1⟩⟩

/-! Claim theorems about stage 2 (`CompressRawVideo`). -/

/-- C2: a successful compression run returns `Ok`, sets
`compression_status = completed`, `compressed_video_path` to
`{videos_root}/{video_id}/raw.zip` and `raw_video_path` to `NULL`,
deletes the raw file only after the archive is finalized and the input
handle closed (visible in the step trace), leaves the archive with
exactly one entry, named after the raw file's base name, whose content
is byte-for-byte the original file — for every `data`, of any length,
including lengths that are not a multiple of the 1 MiB chunk. -/
theorem c2_stage2_success_roundtrip (cfg : Config) (env : Env) (vid jid : Nat)
    (qs : QueueState) (w : World) (video : Video) (rawp name : String) (data : Bytes)
    (h1 : env.updCompressingOk = true) (h2 : env.createDirOk = true)
    (h3 : env.createZipOk = true) (h4 : env.startFileOk = true)
    (h5 : env.chunkOk = true) (h6 : env.finishOk = true)
    (h7 : env.removeOk = true) (h8 : env.updCompressedOk = true)
    (hv : lookupA w.videos vid = some video)
    (hraw : video.raw_video_path = some rawp)
    (hname : fileName rawp = some name)
    (hfile : lookupA w.fs rawp = some (.file data))
    (hne : rawp ≠ zipPathOf cfg vid) :
    (handle_job cfg env ⟨jid, .CompressRawVideo vid⟩ qs w).res = .ok () ∧
    lookupA (handle_job cfg env ⟨jid, .CompressRawVideo vid⟩ qs w).w.videos vid
      = some { video with compression_status := "completed",
                          compressed_video_path := some (zipPathOf cfg vid),
                          raw_video_path := none } ∧
    lookupA (handle_job cfg env ⟨jid, .CompressRawVideo vid⟩ qs w).w.fs (zipPathOf cfg vid)
      = some (.archive [(name, data)]) ∧
    lookupA (handle_job cfg env ⟨jid, .CompressRawVideo vid⟩ qs w).w.fs rawp = none ∧
    (handle_job cfg env ⟨jid, .CompressRawVideo vid⟩ qs w).tr
      = [.updCompressing, .fetchVideo, .createDir, .createZipFile, .startFile,
         .openInput, .writeChunks, .finishArchive, .closeInput, .removeRaw, .updCompleted] ∧
    (handle_job cfg env ⟨jid, .CompressRawVideo vid⟩ qs w).qs = qs := by
  have hv1 : lookupA (updVal w.videos vid
      (fun v => { v with compression_status := "compressing" })) vid
      = some { video with compression_status := "compressing" } := by
    rw [lookupA_updVal_self, hv]
    rfl
  have hfs1 : lookupA (upsert w.fs (zipPathOf cfg vid) (.archive [])) rawp
      = some (.file data) := by
    rw [lookupA_upsert_ne _ _ _ _ hne, hfile]
  have hinner : compressInner cfg env vid
      (World.setVideo w vid (fun v => { v with compression_status := "compressing" })) =
      ⟨.ok (zipPathOf cfg vid),
       ⟨updVal w.videos vid (fun v => { v with compression_status := "compressing" }),
        removeKey (upsert (upsert w.fs (zipPathOf cfg vid) (.archive []))
          (zipPathOf cfg vid) (.archive [(name, (chunksOf data).flatten)])) rawp⟩,
       [.fetchVideo, .createDir, .createZipFile, .startFile, .openInput,
        .writeChunks, .finishArchive, .closeInput, .removeRaw]⟩ := by
    simp only [compressInner, World.setVideo, hv1, h2, h3, h4, h5, h6, h7, if_true,
      hraw, Option.getD_some, hname, hfs1]
  have hzipne : zipPathOf cfg vid ≠ rawp := Ne.symm hne
  simp only [handle_job, handle_compress, h1, if_true, hinner, h8]
  refine ⟨by trivial, ?_, ?_, ?_, by trivial, by trivial⟩
  · simp only [World.setVideo]
    rw [lookupA_updVal_self, hv1]
    rfl
  · simp only [World.setVideo]
    rw [lookupA_removeKey_ne _ _ _ hzipne, lookupA_upsert_self, chunksOf_join]
  · simp only [World.setVideo]
    rw [lookupA_removeKey_self]

theorem c2_stage2_success_roundtrip_witness :
    (lookupA ([(7, (⟨7, some "uploads/a.mp4", "completed", some "m", "none", none⟩ : Video))] :
        List (Nat × Video)) 7
        = some ⟨7, some "uploads/a.mp4", "completed", some "m", "none", none⟩) ∧
    (fileName "uploads/a.mp4" = some "a.mp4") ∧
    ("uploads/a.mp4" ≠ zipPathOf {} 7) ∧
    ((handle_job {} {} ⟨1, .CompressRawVideo 7⟩ ⟨[], 0⟩
        ⟨[(7, ⟨7, some "uploads/a.mp4", "completed", some "m", "none", none⟩)],
         [("uploads/a.mp4", .file [10, 20, 30])]⟩).res = .ok () ∧
      lookupA (handle_job {} {} ⟨1, .CompressRawVideo 7⟩ ⟨[], 0⟩
        ⟨[(7, ⟨7, some "uploads/a.mp4", "completed", some "m", "none", none⟩)],
         [("uploads/a.mp4", .file [10, 20, 30])]⟩).w.fs (zipPathOf {} 7)
        = some (.archive [("a.mp4", [10, 20, 30])]) ∧
      lookupA (handle_job {} {} ⟨1, .CompressRawVideo 7⟩ ⟨[], 0⟩
        ⟨[(7, ⟨7, some "uploads/a.mp4", "completed", some "m", "none", none⟩)],
         [("uploads/a.mp4", .file [10, 20, 30])]⟩).w.videos 7
        = some ⟨7, none, "completed", some "m", "completed", some (zipPathOf {} 7)⟩) :=
  ⟨by decide, by decide, by decide, by
    have h := c2_stage2_success_roundtrip {} {} 7 1 ⟨[], 0⟩
      ⟨[(7, ⟨7, some "uploads/a.mp4", "completed", some "m", "none", none⟩)],
       [("uploads/a.mp4", .file [10, 20, 30])]⟩
      ⟨7, some "uploads/a.mp4", "completed", some "m", "none", none⟩
      "uploads/a.mp4" "a.mp4" [10, 20, 30]
      rfl rfl rfl rfl rfl rfl rfl rfl (by decide) rfl (by decide) (by decide) (by decide)
    exact ⟨h.1, h.2.2.1, h.2.1⟩⟩

/-- Shape of the inner compression block on any failure: it never
touches the videos table, never changes the filesystem at any path other
than the archive path, never writes a status (no `updFailed` step — that
write belongs to the handler), and attempts the raw-file deletion only
when the deletion itself is the failing step. -/
theorem compressInner_error_shape (cfg : Config) (env : Env) (vid : Nat) (w : World)
    (e : Error) (p : String) (hne : p ≠ zipPathOf cfg vid)
    (hfail : (compressInner cfg env vid w).res = .error e) :
    (compressInner cfg env vid w).w.videos = w.videos ∧
    lookupA (compressInner cfg env vid w).w.fs p = lookupA w.fs p ∧
    Ev.updFailed ∉ (compressInner cfg env vid w).tr ∧
    (Ev.removeRaw ∈ (compressInner cfg env vid w).tr → env.removeOk = false) := by
  cases hv : lookupA w.videos vid with
  | none => simp [compressInner, hv]
  | some video =>
    by_cases h2 : env.createDirOk
    case neg => simp [compressInner, hv, h2]
    by_cases h3 : env.createZipOk
    case neg => simp [compressInner, hv, h2, h3]
    cases hname : fileName (video.raw_video_path.getD "") with
    | none => simp [compressInner, hv, h2, h3, hname, lookupA_upsert_ne _ _ _ _ hne]
    | some nm =>
      by_cases h4 : env.startFileOk
      case neg =>
        simp [compressInner, hv, h2, h3, hname, h4, lookupA_upsert_ne _ _ _ _ hne]
      cases hopen : lookupA (upsert w.fs (zipPathOf cfg vid) (.archive []))
          (video.raw_video_path.getD "") with
      | none =>
        simp [compressInner, hv, h2, h3, hname, h4, hopen,
          lookupA_upsert_ne _ _ _ _ hne]
      | some node =>
        cases node with
        | archive es =>
          simp [compressInner, hv, h2, h3, hname, h4, hopen,
            lookupA_upsert_ne _ _ _ _ hne]
        | file data =>
          by_cases h5 : env.chunkOk
          case neg =>
            simp [compressInner, hv, h2, h3, hname, h4, hopen, h5,
              lookupA_upsert_ne _ _ _ _ hne]
          by_cases h6 : env.finishOk
          case neg =>
            simp [compressInner, hv, h2, h3, hname, h4, hopen, h5, h6,
              lookupA_upsert_ne _ _ _ _ hne]
          by_cases h7 : env.removeOk
          case pos =>
            exfalso
            simp [compressInner, hv, h2, h3, hname, h4, hopen, h5, h6, h7] at hfail
          case neg =>
            simp only [Bool.not_eq_true] at h7
            simp [compressInner, hv, h2, h3, hname, h4, hopen, h5, h6, h7,
              lookupA_upsert_ne _ _ _ _ hne]

/-- The archive path is never the empty string (it ends in `/raw.zip`),
giving a concrete path every stage-2 run leaves alone. -/
theorem zipPathOf_ne_empty (cfg : Config) (vid : Nat) : zipPathOf cfg vid ≠ "" := by
  intro h
  have hlen := congrArg String.length h
  simp [zipPathOf, videoDirOf, String.length_append] at hlen
  exact absurd hlen.2 (by decide)

/-- C1: when any step of the inner compression sequence fails — the
missing Video row included, since no row is assumed — the handler
propagates exactly that error to its caller (so the Runner will
`fail_job`), writes `compression_status = failed` exactly once, changes
the Video row (when one exists) in no field other than
`compression_status` — in particular `raw_video_path` and
`compressed_video_path` are not cleared — leaves every filesystem path
but the archive path exactly as it was (so the raw file is not
deleted), and attempts deletion only when the deletion step itself is
the failure point. -/
theorem c1_stage2_failure_preserves_source (cfg : Config) (env : Env) (vid jid : Nat)
    (qs : QueueState) (w : World) (e : Error)
    (h1 : env.updCompressingOk = true) (h2 : env.updFailedOk = true)
    (hfail : (compressInner cfg env vid
      (World.setVideo w vid (fun v => { v with compression_status := "compressing" }))).res
      = .error e) :
    (handle_job cfg env ⟨jid, .CompressRawVideo vid⟩ qs w).res = .error e ∧
    ((handle_job cfg env ⟨jid, .CompressRawVideo vid⟩ qs w).tr).count Ev.updFailed = 1 ∧
    lookupA (handle_job cfg env ⟨jid, .CompressRawVideo vid⟩ qs w).w.videos vid
      = (lookupA w.videos vid).map (fun v => { v with compression_status := "failed" }) ∧
    (∀ p : String, p ≠ zipPathOf cfg vid →
      lookupA (handle_job cfg env ⟨jid, .CompressRawVideo vid⟩ qs w).w.fs p
        = lookupA w.fs p) ∧
    (Ev.removeRaw ∈ (handle_job cfg env ⟨jid, .CompressRawVideo vid⟩ qs w).tr →
      env.removeOk = false) ∧
    (handle_job cfg env ⟨jid, .CompressRawVideo vid⟩ qs w).qs = qs := by
  have hfail0 := hfail
  obtain ⟨hvids, -, hnotfailed, hremove⟩ := compressInner_error_shape cfg env vid
    (World.setVideo w vid (fun v => { v with compression_status := "compressing" }))
    e "" (fun h => zipPathOf_ne_empty cfg vid h.symm) hfail0
  simp only [World.setVideo] at hvids hnotfailed hremove hfail
  simp only [handle_job, handle_compress, World.setVideo, h1, if_true, hfail, h2]
  refine ⟨by trivial, ?_, ?_, ?_, ?_, by trivial⟩
  · simp [List.count_cons, List.count_append, List.count_singleton,
      List.count_eq_zero.mpr hnotfailed]
  · cases hvv : lookupA w.videos vid with
    | none => simp [lookupA_updVal_self, hvids, hvv]
    | some v => simp [lookupA_updVal_self, hvids, hvv]
  · intro p hp
    have hfs := (compressInner_error_shape cfg env vid
      (World.setVideo w vid (fun v => { v with compression_status := "compressing" }))
      e p hp hfail0).2.1
    simpa [World.setVideo] using hfs
  · intro hm
    apply hremove
    simpa using hm

theorem c1_stage2_failure_preserves_source_witness :
    (({} : Env).updCompressingOk = true) ∧
    (({} : Env).updFailedOk = true) ∧
    ((compressInner {} {} 7
        (World.setVideo ⟨[], [("uploads/a.mp4", .file [10, 20, 30])]⟩ 7
          (fun v => { v with compression_status := "compressing" }))).res
      = .error .RowNotFound) ∧
    ((handle_job {} {} ⟨1, .CompressRawVideo 7⟩ ⟨[], 0⟩
        ⟨[], [("uploads/a.mp4", .file [10, 20, 30])]⟩).res = .error .RowNotFound ∧
      ((handle_job {} {} ⟨1, .CompressRawVideo 7⟩ ⟨[], 0⟩
        ⟨[], [("uploads/a.mp4", .file [10, 20, 30])]⟩).tr).count Ev.updFailed = 1 ∧
      lookupA (handle_job {} {} ⟨1, .CompressRawVideo 7⟩ ⟨[], 0⟩
        ⟨[], [("uploads/a.mp4", .file [10, 20, 30])]⟩).w.fs "uploads/a.mp4"
        = some (.file [10, 20, 30])) :=
  ⟨rfl, rfl, by decide, by
    have h := c1_stage2_failure_preserves_source {} {} 7 1 ⟨[], 0⟩
      ⟨[], [("uploads/a.mp4", .file [10, 20, 30])]⟩ .RowNotFound rfl rfl (by decide)
    refine ⟨h.1, h.2.1, ?_⟩
    have hfs := h.2.2.2.1 "uploads/a.mp4" (by decide)
    simpa using hfs⟩

/-! Claim theorems about the authentication middleware. -/

/-- C9 as frozen is false: with the Authorization header present and
readable but holding fewer than two whitespace-separated parts — the
bare string `Bearer` — the middleware does not return a value; the
`token.expect("Could not parse token")` call panics. -/
theorem c9_counterexample_bare_bearer :
    auth_middleware (some "Bearer") true true true true
      = .panicked "Could not parse token" := by decide

/-- C9 amended: `auth_middleware` returns a value (downstream response
or HTTP error status) and does not panic whenever the Authorization
header is absent, is not readable as a string, or contains at least two
whitespace-separated parts; when the header is present and readable with
fewer than two parts, the token `expect` panics instead (see the
counterexample). -/
theorem c9_amended_no_panic (header : Option String) (utf8Ok decodeOk uuidOk userOk : Bool)
    (h : header = none ∨ utf8Ok = false ∨
      (∃ s, header = some s ∧ 2 ≤ (split_whitespace s).length)) :
    (auth_middleware header utf8Ok decodeOk uuidOk userOk).isPanicked = false := by
  rcases h with h | h | ⟨s, rfl, hs⟩
  · simp [h, auth_middleware, AuthOutcome.isPanicked]
  · cases header with
    | none => simp [auth_middleware, AuthOutcome.isPanicked]
    | some s => simp [auth_middleware, h, AuthOutcome.isPanicked]
  · cases hu : utf8Ok with
    | false => simp [auth_middleware, AuthOutcome.isPanicked]
    | true =>
      cases hg : (split_whitespace s)[1]? with
      | none =>
        exfalso
        rw [List.getElem?_eq_none_iff] at hg
        omega
      | some t =>
        cases decodeOk <;> cases uuidOk <;> cases userOk <;>
          simp [auth_middleware, hg, AuthOutcome.isPanicked]

theorem c9_amended_no_panic_witness :
    ((some "Bearer abc" : Option String) = none ∨ (true : Bool) = false ∨
      (∃ s, (some "Bearer abc" : Option String) = some s ∧
        2 ≤ (split_whitespace s).length)) ∧
    (auth_middleware (some "Bearer abc") true true true true).isPanicked = false :=
  ⟨Or.inr (Or.inr ⟨"Bearer abc", rfl, by decide⟩),
   c9_amended_no_panic (some "Bearer abc") true true true true
     (Or.inr (Or.inr ⟨"Bearer abc", rfl, by decide⟩))⟩

end Farmhand
